import Mathlib

/-!
Verification of the queue-manager core of the repository
(`src/queue_manager.py`, class `QueueManager`).

The Python code is shallowly embedded: the mutable `QueueManager` object
becomes an explicit state record `QMState`; every method becomes a pure
function from a state (plus the externally supplied outcomes of the
`client` collaborator) to a new state; the callbacks fired by a method are
returned as an explicit event list.  The worker threads are modelled twice:

* a sequential driver `runQueue` that replays one worker's loop
  (dequeue, cancelled-check, `_process_job`) against a list of dispatch
  outcomes, used for the retry/terminal-status claims;
* a small-step interleaving semantics `Step` over `PoolState`
  (worker program counters + shared state) that exposes the check-then-act
  structure of `_worker` and `_process_job`, used for the concurrency
  claims.

Opaque Python values (workflow dicts, history dicts, metadata) are embedded
as `Nat`; `time.time()` is a logical clock; the `Optional[float]` timeout of
`wait_for_completion` is `Option Nat` with Python falsiness made explicit.
-/

/-- Job execution status (`JobStatus` enum, queue_manager.py lines 17-23). -/
inductive JobStatus where
  | pending
  | running
  | completed
  | failed
  | cancelled
deriving DecidableEq, Repr

/-- The `Job` dataclass (queue_manager.py lines 26-39).  `workflow`,
`result` and `metadata` are opaque dictionaries in the source, embedded as
`Nat`; timestamps are logical-clock values. -/
structure Job where
  job_id : String
  workflow : Nat
  status : JobStatus := .pending
  prompt_id : Option String := none
  result : Option Nat := none
  error : Option String := none
  metadata : Nat := 0
  created_at : Nat := 0
  started_at : Option Nat := none
  completed_at : Option Nat := none
  retry_count : Nat := 0
deriving DecidableEq, Repr

/-- The five callback kinds of `self.callbacks` (lines 69-75). -/
inductive EventType where
  | job_started
  | job_completed
  | job_failed
  | job_cancelled
  | queue_empty
deriving DecidableEq, Repr

/-- One `_trigger_callbacks` invocation: the event kind and the id of the
affected job (`none` for `queue_empty`, which passes `None`). -/
structure Event where
  etype : EventType
  jobId : Option String
deriving DecidableEq, Repr

/-- The mutable state of a `QueueManager` instance (`__init__`,
lines 45-77): configuration, the `self.jobs` dict (an insertion-ordered
association list), the FIFO `self.job_queue`, the `self.running_jobs`
bookkeeping list, the `running`/`paused` flags, and a logical clock
standing in for `time.time()`. -/
structure QMState where
  max_concurrent : Nat := 3
  retry_on_failure : Bool := true
  max_retries : Nat := 3
  jobs : List (String × Job) := []
  job_queue : List String := []
  running_jobs : List String := []
  running : Bool := false
  paused : Bool := false
  clock : Nat := 0
deriving DecidableEq, Repr

/-- Dictionary lookup `self.jobs.get(job_id)` (`get_job`, lines 128-130). -/
def findJob (jobs : List (String × Job)) (job_id : String) : Option Job :=
  match jobs with
  | [] => none
  | (k, v) :: rest => if k = job_id then some v else findJob rest job_id

/-- In-place mutation of the job stored under `job_id`: Python mutates the
`Job` object held in the dict; here the association list entry is
rewritten. -/
def updateJob (jobs : List (String × Job)) (job_id : String) (f : Job → Job) :
    List (String × Job) :=
  jobs.map (fun p => if p.1 = job_id then (p.1, f p.2) else p)

/-- `QueueManager.__init__` (lines 45-77): empty store, empty queue, no
running jobs, pool stopped. -/
def initQM (max_concurrent : Nat) (retry_on_failure : Bool) (max_retries : Nat) :
    QMState :=
  { max_concurrent := max_concurrent
    retry_on_failure := retry_on_failure
    max_retries := max_retries
    jobs := []
    job_queue := []
    running_jobs := []
    running := false
    paused := false
    clock := 0 }

/-- The fresh `Job` record built by `add_job` (lines 95-99): pending, no
external ref, `created_at` stamped, `metadata or {}` defaulting. -/
def mkJob (s : QMState) (job_id : String) (workflow : Nat)
    (metadata : Option Nat) : Job :=
  { job_id := job_id
    workflow := workflow
    status := .pending
    prompt_id := none
    result := none
    error := none
    metadata := metadata.getD 0
    created_at := s.clock
    started_at := none
    completed_at := none
    retry_count := 0 }

/-- `add_job` (lines 79-105).  Raising `ValueError` on a duplicate id is
embedded as returning the unchanged state together with `Except.error`;
the raise happens before any mutation, so the state component is exactly
the input state. -/
def add_job (s : QMState) (job_id : String) (workflow : Nat)
    (metadata : Option Nat) : QMState × Except String Job :=
  if (findJob s.jobs job_id).isSome then
    (s, .error ("Job ID already exists: " ++ job_id))
  else
    ({ s with
        jobs := s.jobs ++ [(job_id, mkJob s job_id workflow metadata)]
        job_queue := s.job_queue ++ [job_id]
        clock := s.clock + 1 }, .ok (mkJob s job_id workflow metadata))

/-- Folds `add_job` over a list of (id, workflow) pairs, discarding the
per-call results, to model a sequence of `add_job` calls. -/
def addAll (s : QMState) (items : List (String × Nat)) : QMState :=
  items.foldl (fun st p => (add_job st p.1 p.2 none).1) s

/-- `cancel_job` (lines 145-177).  `interrupt_ok` is the outcome of the
external `self.client.interrupt_execution()` call: `false` means it raised,
in which case the except-branch returns `False` before any state change.
The returned event list records the `_trigger_callbacks` invocations. -/
def cancel_job (s : QMState) (job_id : String) (interrupt_ok : Bool) :
    QMState × Bool × List Event :=
  match findJob s.jobs job_id with
  | none => (s, false, [])
  | some job =>
    if job.status = .pending then
      ({ s with jobs := updateJob s.jobs job_id (fun j => { j with status := .cancelled }) },
       true, [⟨.job_cancelled, some job_id⟩])
    else if job.status = .running then
      if interrupt_ok then
        ({ s with jobs := updateJob s.jobs job_id (fun j => { j with status := .cancelled }) },
         true, [⟨.job_cancelled, some job_id⟩])
      else (s, false, [])
    else (s, false, [])

/-- Outcome of one dispatch attempt, i.e. of the external calls made inside
the try-block of `_process_job` (lines 194-208): `queue_prompt` raised; the
response carried no `prompt_id` (line 208 then raises `RuntimeError`);
`wait_for_completion` raised after a `prompt_id` was obtained; or full
success with a history value. -/
inductive DispatchResult where
  | qpError (msg : String)
  | noPromptId
  | waitError (pid : String) (msg : String)
  | success (pid : String) (history : Nat)
deriving DecidableEq, Repr

/-- The except-branch of `_process_job` (lines 210-223): set `error`,
increment `retry_count`, then either re-enqueue as pending (retry) or mark
terminally failed.  Returns the updated job and the requeue flag. -/
def failUpdate (retry_on : Bool) (max_retries : Nat) (clock : Nat)
    (msg : String) (j : Job) : Job × Bool :=
  let j1 : Job := { j with error := some msg, retry_count := j.retry_count + 1 }
  if retry_on = true ∧ j1.retry_count ≤ max_retries then
    ({ j1 with status := .pending }, true)
  else
    ({ j1 with status := .failed, completed_at := some clock }, false)

/-- The body of `_process_job` after the job was marked running
(lines 194-223), as a function of the dispatch outcome: the updated job,
the requeue flag, and the events fired after `job_started`.  A retry fires
no event; only the terminal outcomes fire `job_completed` / `job_failed`.
Note that `job.prompt_id` is assigned from the response before the
completion wait, so a `waitError` attempt still records its `prompt_id`. -/
def applyDispatch (retry_on : Bool) (max_retries : Nat) (clock : Nat)
    (dr : DispatchResult) (j : Job) : Job × Bool × List Event :=
  match dr with
  | .success pid hist =>
    ({ j with prompt_id := some pid, result := some hist, status := .completed,
              completed_at := some clock }, false,
     [⟨.job_completed, some j.job_id⟩])
  | .waitError pid msg =>
    let r := failUpdate retry_on max_retries clock msg { j with prompt_id := some pid }
    (r.1, r.2, if r.2 then [] else [⟨.job_failed, some j.job_id⟩])
  | .noPromptId =>
    let r := failUpdate retry_on max_retries clock "No prompt_id received"
      { j with prompt_id := none }
    (r.1, r.2, if r.2 then [] else [⟨.job_failed, some j.job_id⟩])
  | .qpError msg =>
    let r := failUpdate retry_on max_retries clock msg j
    (r.1, r.2, if r.2 then [] else [⟨.job_failed, some j.job_id⟩])

/-- `_process_job` (lines 179-227) run to completion on one dispatch
outcome: mark running (`started_at`, `running_jobs` append, `job_started`),
apply the dispatch outcome, re-enqueue at the tail on retry, and release
the `running_jobs` slot in the finally-block (`list.remove` drops the first
occurrence, as `List.erase` does). -/
def process_job (s : QMState) (job_id : String) (dr : DispatchResult) :
    QMState × List Event :=
  match findJob s.jobs job_id with
  | none => (s, [])
  | some j0 =>
    let jr : Job := { j0 with status := .running, started_at := some s.clock }
    let out := applyDispatch s.retry_on_failure s.max_retries (s.clock + 1) dr jr
    ({ s with
        jobs := updateJob s.jobs job_id (fun _ => out.1)
        job_queue := if out.2.1 then s.job_queue ++ [job_id] else s.job_queue
        running_jobs := (s.running_jobs ++ [job_id]).erase job_id
        clock := s.clock + 2 },
     ⟨.job_started, some job_id⟩ :: out.2.2)

/-- The dequeue-and-skip step of `_worker` (lines 244-254): pop ids until
one names an existing, non-cancelled job; a dequeued id whose job is
already cancelled is discarded without dispatch. -/
def popNext (jobs : List (String × Job)) : List String → Option (String × List String)
  | [] => none
  | id :: rest =>
    match findJob jobs id with
    | some j => if j.status = .cancelled then popNext jobs rest else some (id, rest)
    | none => popNext jobs rest

/-- One worker's loop (lines 229-258) replayed sequentially against a list
of dispatch outcomes, one outcome per `_process_job` call; skipped
(cancelled) ids consume no outcome.  The replay stops when the queue is
empty or the outcome list is exhausted. -/
def runQueue (s : QMState) : List DispatchResult → QMState × List Event
  | [] => (s, [])
  | dr :: drs =>
    match popNext s.jobs s.job_queue with
    | none => (s, [])
    | some (id, rest) =>
      let pr := process_job { s with job_queue := rest } id dr
      let rec' := runQueue pr.1 drs
      (rec'.1, pr.2 ++ rec'.2)

/-- `get_jobs_by_status` (lines 141-143). -/
def get_jobs_by_status (s : QMState) (st : JobStatus) : List Job :=
  (s.jobs.map Prod.snd).filter (fun j => decide (j.status = st))

/-- The statistics record returned by `get_statistics` (lines 329-343). -/
structure Stats where
  total_jobs : Nat
  pending : Nat
  running : Nat
  completed : Nat
  failed : Nat
  cancelled : Nat
  queue_size : Nat
  is_running : Bool
  is_paused : Bool
deriving DecidableEq, Repr

/-- `get_statistics` (lines 329-343): computed fresh from the state on
every call, nothing cached. -/
def get_statistics (s : QMState) : Stats :=
  { total_jobs := s.jobs.length
    pending := (get_jobs_by_status s .pending).length
    running := (get_jobs_by_status s .running).length
    completed := (get_jobs_by_status s .completed).length
    failed := (get_jobs_by_status s .failed).length
    cancelled := (get_jobs_by_status s .cancelled).length
    queue_size := s.job_queue.length
    is_running := s.running
    is_paused := s.paused }

/-- Python falsiness of the `Optional[float]` timeout in
`wait_for_completion` line 322: `if timeout and ...` is skipped both for
`None` and for `0`. -/
def timeoutTruthy : Option Nat → Bool
  | none => false
  | some t => decide (t ≠ 0)

/-- Drain condition of `wait_for_completion` line 321: the loop exits when
`self.job_queue` is empty and `self.running_jobs` is empty. -/
def drainedState (s : QMState) : Bool :=
  s.job_queue.isEmpty && s.running_jobs.isEmpty

/-- `wait_for_completion` (lines 312-327).  The states mutated concurrently
by the workers are supplied as the list of snapshots the polling loop
observes, one per iteration; `elapsed` counts completed sleep intervals
since `start_time`.  Each iteration first evaluates the loop condition
(exit and fire `queue_empty` when drained), then the timeout guard (raise
`TimeoutError`), then sleeps.  The observed state is returned untouched in
both exits; `none` means the snapshot list was too short to decide. -/
def wait_for_completion (timeout : Option Nat) :
    List QMState → Nat → Option (QMState × Except String (List Event))
  | [], _ => none
  | s :: rest, elapsed =>
    if drainedState s then
      some (s, .ok [⟨.queue_empty, none⟩])
    else if timeoutTruthy timeout && decide (elapsed > timeout.getD 0) then
      some (s, .error "Queue did not complete within timeout")
    else
      wait_for_completion timeout rest (elapsed + 1)

/-- Behaviour of one registered listener when invoked: the observable
actions it performs (opaque, embedded as `Nat`s) before returning or
raising, and the exception it raises, if any. -/
structure CallbackBehavior where
  actions : List Nat
  raises : Option String
deriving Repr

/-- A listener is called with the affected job (`None` for `queue_empty`). -/
def Callback : Type := Option Job → CallbackBehavior

/-- `_trigger_callbacks` (lines 358-365): invoke every registered listener
in order inside a try/except; a raised exception is logged and swallowed,
so the loop continues and nothing propagates to the firing code — the
return type carries no error component. -/
def trigger_callbacks (cbs : List Callback) (job : Option Job) : List Nat :=
  match cbs with
  | [] => []
  | cb :: rest => (cb job).actions ++ trigger_callbacks rest job

/-- The `self.callbacks` dict (lines 69-75): one listener list per event
kind, append-only. -/
structure EventBus where
  job_started : List Callback
  job_completed : List Callback
  job_failed : List Callback
  job_cancelled : List Callback
  queue_empty : List Callback

/-- The listener list registered for a kind. -/
def listeners (bus : EventBus) : EventType → List Callback
  | .job_started => bus.job_started
  | .job_completed => bus.job_completed
  | .job_failed => bus.job_failed
  | .job_cancelled => bus.job_cancelled
  | .queue_empty => bus.queue_empty

/-- `QueueManager.on` (lines 345-356): append a listener to the list for
its kind. -/
def on_event (bus : EventBus) (e : EventType) (cb : Callback) : EventBus :=
  match e with
  | .job_started => { bus with job_started := bus.job_started ++ [cb] }
  | .job_completed => { bus with job_completed := bus.job_completed ++ [cb] }
  | .job_failed => { bus with job_failed := bus.job_failed ++ [cb] }
  | .job_cancelled => { bus with job_cancelled := bus.job_cancelled ++ [cb] }
  | .queue_empty => { bus with queue_empty := bus.queue_empty ++ [cb] }

/-- Firing an event: run `_trigger_callbacks` on the listeners registered
for the kind. -/
def fireEvent (bus : EventBus) (e : EventType) (job : Option Job) : List Nat :=
  trigger_callbacks (listeners bus e) job

/-- Program counter of one worker thread inside `_worker` (lines 229-258),
with `_process_job` inlined.  `ready`: passed the concurrency-limit check
of line 238.  `checking id`: dequeued `id`, about to run the cancelled
check of lines 251-252.  `willProcess id`: passed that check, about to
enter `_process_job`.  `processing id`: executed lines 186-189 (status set
to running, slot taken), dispatch in flight. -/
inductive WorkerPC where
  | idle
  | ready
  | checking (job_id : String)
  | willProcess (job_id : String)
  | processing (job_id : String)
deriving DecidableEq, Repr

/-- Shared scheduler state plus the program counters of the started worker
threads. -/
structure PoolState extends QMState where
  workers : List WorkerPC := []
deriving DecidableEq, Repr

/-- Interleaving small-step semantics of the running pool: at each step one
worker advances by one atomic region of `_worker`/`_process_job`, or the
caller invokes `cancel_job`.  The concurrency-limit test (line 238) and the
cancelled test (line 252) are separate steps from the actions they guard,
exactly as in the source, where other threads can run in between. -/
inductive Step : PoolState → PoolState → Prop where
  | checkPass (s t : PoolState) (i : Nat)
      (hpc : s.workers.get? i = some .idle)
      (hlt : s.running_jobs.length < s.max_concurrent)
      (ht : t = { s with workers := s.workers.set i .ready }) : Step s t
  | dequeue (s t : PoolState) (i : Nat) (id : String) (q : List String)
      (hpc : s.workers.get? i = some .ready)
      (hq : s.job_queue = id :: q)
      (ht : t = { s with job_queue := q, workers := s.workers.set i (.checking id) }) :
      Step s t
  | skipCancelled (s t : PoolState) (i : Nat) (id : String) (j : Job)
      (hpc : s.workers.get? i = some (.checking id))
      (hj : findJob s.jobs id = some j)
      (hc : j.status = .cancelled)
      (ht : t = { s with workers := s.workers.set i .idle }) : Step s t
  | missingJob (s t : PoolState) (i : Nat) (id : String)
      (hpc : s.workers.get? i = some (.checking id))
      (hj : findJob s.jobs id = none)
      (ht : t = { s with workers := s.workers.set i .idle }) : Step s t
  | passCheck (s t : PoolState) (i : Nat) (id : String) (j : Job)
      (hpc : s.workers.get? i = some (.checking id))
      (hj : findJob s.jobs id = some j)
      (hc : j.status ≠ .cancelled)
      (ht : t = { s with workers := s.workers.set i (.willProcess id) }) : Step s t
  | beginProcess (s t : PoolState) (i : Nat) (id : String) (j : Job)
      (hpc : s.workers.get? i = some (.willProcess id))
      (hj : findJob s.jobs id = some j)
      (ht : t = { s with
          jobs := updateJob s.jobs id
            (fun j0 => { j0 with status := .running, started_at := some s.clock })
          running_jobs := s.running_jobs ++ [id]
          clock := s.clock + 1
          workers := s.workers.set i (.processing id) }) : Step s t
  | finishProcess (s t : PoolState) (i : Nat) (id : String) (j : Job)
      (dr : DispatchResult)
      (hpc : s.workers.get? i = some (.processing id))
      (hj : findJob s.jobs id = some j)
      (ht : t = { s with
          jobs := updateJob s.jobs id
            (fun _ => (applyDispatch s.retry_on_failure s.max_retries s.clock dr j).1)
          job_queue :=
            if (applyDispatch s.retry_on_failure s.max_retries s.clock dr j).2.1 then
              s.job_queue ++ [id]
            else s.job_queue
          running_jobs := s.running_jobs.erase id
          clock := s.clock + 1
          workers := s.workers.set i .idle }) : Step s t
  | cancelAct (s t : PoolState) (id : String) (ok : Bool)
      (ht : t = { s with toQMState := (cancel_job s.toQMState id ok).1 }) : Step s t

/-- Reachability along worker/cancel interleavings. -/
def Reachable : PoolState → PoolState → Prop :=
  Relation.ReflTransGen Step

/-- The ids of the jobs whose status is `running` right now. -/
def runningIds (s : QMState) : List String :=
  (s.jobs.filter (fun p => decide (p.2.status = JobStatus.running))).map Prod.fst

/-- The id a worker currently processes, if any. -/
def pcHeld (pc : WorkerPC) : Option String :=
  match pc with
  | .processing id => some id
  | _ => none

/-- The ids currently held by a worker that is inside `_process_job` with
the status already set to running. -/
def heldIds (ws : List WorkerPC) : List String :=
  ws.filterMap pcHeld

/-- Every running job is held by some worker that is processing it. -/
def HeldInv (s : PoolState) : Prop :=
  ∀ id j, findJob s.jobs id = some j → j.status = JobStatus.running →
    id ∈ heldIds s.workers

/-- Pending job used by the concrete interleaving traces. -/
def jA : Job := { job_id := "a", workflow := 0 }

/-- Second pending job used by the concurrency-limit trace. -/
def jB : Job := { job_id := "b", workflow := 0 }

/-- Start state for the concurrency-limit race: `max_concurrent = 1`, two
started workers, two pending jobs enqueued, nothing running. -/
def poolInit3 : PoolState :=
  { toQMState :=
      { initQM 1 true 0 with
          jobs := [("a", jA), ("b", jB)]
          job_queue := ["a", "b"]
          running := true }
    workers := [.idle, .idle] }

/-- Trace of the race: both workers pass the limit check while nothing runs. -/
def st31 : PoolState := { poolInit3 with workers := poolInit3.workers.set 0 .ready }

/-- Second worker also passes the limit check. -/
def st32 : PoolState := { st31 with workers := st31.workers.set 1 .ready }

/-- First worker dequeues job "a". -/
def st33 : PoolState :=
  { st32 with job_queue := ["b"], workers := st32.workers.set 0 (.checking "a") }

/-- Second worker dequeues job "b". -/
def st34 : PoolState :=
  { st33 with job_queue := [], workers := st33.workers.set 1 (.checking "b") }

/-- First worker passes the cancelled check for "a". -/
def st35 : PoolState := { st34 with workers := st34.workers.set 0 (.willProcess "a") }

/-- Second worker passes the cancelled check for "b". -/
def st36 : PoolState := { st35 with workers := st35.workers.set 1 (.willProcess "b") }

/-- First worker enters `_process_job`: "a" becomes running. -/
def st37 : PoolState :=
  { st36 with
      jobs := updateJob st36.jobs "a"
        (fun j0 => { j0 with status := .running, started_at := some st36.clock })
      running_jobs := st36.running_jobs ++ ["a"]
      clock := st36.clock + 1
      workers := st36.workers.set 0 (.processing "a") }

/-- Second worker enters `_process_job`: "b" also becomes running, so two
jobs run although `max_concurrent = 1`. -/
def st38 : PoolState :=
  { st37 with
      jobs := updateJob st37.jobs "b"
        (fun j0 => { j0 with status := .running, started_at := some st37.clock })
      running_jobs := st37.running_jobs ++ ["b"]
      clock := st37.clock + 1
      workers := st37.workers.set 1 (.processing "b") }

/-- Pending job for the cancellation race. -/
def jC : Job := { job_id := "j", workflow := 0 }

/-- Start state for the cancellation race: one worker, one pending job. -/
def poolInit6 : PoolState :=
  { toQMState :=
      { initQM 1 true 0 with
          jobs := [("j", jC)]
          job_queue := ["j"]
          running := true }
    workers := [.idle] }

/-- Worker passes the limit check. -/
def st61 : PoolState := { poolInit6 with workers := poolInit6.workers.set 0 .ready }

/-- Worker dequeues "j". -/
def st62 : PoolState :=
  { st61 with job_queue := [], workers := st61.workers.set 0 (.checking "j") }

/-- Worker passes the cancelled check while "j" is still pending. -/
def st63 : PoolState := { st62 with workers := st62.workers.set 0 (.willProcess "j") }

/-- The caller now cancels "j": it is pending, so `cancel_job` marks it
cancelled and returns true. -/
def st64 : PoolState := { st63 with toQMState := (cancel_job st63.toQMState "j" true).1 }

/-- The worker, already past its cancelled check, enters `_process_job`
anyway: the cancelled job is overwritten to running. -/
def st65 : PoolState :=
  { st64 with
      jobs := updateJob st64.jobs "j"
        (fun j0 => { j0 with status := .running, started_at := some st64.clock })
      running_jobs := st64.running_jobs ++ ["j"]
      clock := st64.clock + 1
      workers := st64.workers.set 0 (.processing "j") }

/-- The dispatch succeeds: the cancelled-while-pending job ends completed
with a non-null `prompt_id`. -/
def st66 : PoolState :=
  { st65 with
      jobs := updateJob st65.jobs "j"
        (fun _ => (applyDispatch st65.retry_on_failure st65.max_retries st65.clock
          (.success "p" 42) (Option.getD (findJob st65.jobs "j") jC)).1)
      job_queue :=
        if (applyDispatch st65.retry_on_failure st65.max_retries st65.clock
            (.success "p" 42) (Option.getD (findJob st65.jobs "j") jC)).2.1 then
          st65.job_queue ++ ["j"]
        else st65.job_queue
      running_jobs := st65.running_jobs.erase "j"
      clock := st65.clock + 1
      workers := st65.workers.set 0 .idle }

/-! ## Basic lemmas about the job store -/

theorem findJob_cons (k : String) (v : Job) (rest : List (String × Job)) (id : String) :
    findJob ((k, v) :: rest) id = if k = id then some v else findJob rest id := rfl

theorem updateJob_cons (k : String) (v : Job) (rest : List (String × Job))
    (id : String) (f : Job → Job) :
    updateJob ((k, v) :: rest) id f =
      (if k = id then (k, f v) else (k, v)) :: updateJob rest id f := rfl

theorem findJob_updateJob_self : ∀ (jobs : List (String × Job)) (id : String)
    (f : Job → Job) (j : Job),
    findJob jobs id = some j → findJob (updateJob jobs id f) id = some (f j)
  | [], id, f, j, h => by simp [findJob] at h
  | (k, v) :: rest, id, f, j, h => by
    rw [findJob_cons] at h
    rw [updateJob_cons]
    by_cases hk : k = id
    · rw [if_pos hk] at h
      obtain rfl : v = j := Option.some.inj h
      rw [if_pos hk, findJob_cons, if_pos hk]
    · rw [if_neg hk] at h
      rw [if_neg hk, findJob_cons, if_neg hk]
      exact findJob_updateJob_self rest id f j h

theorem findJob_updateJob_ne : ∀ (jobs : List (String × Job)) (id id' : String)
    (f : Job → Job), id' ≠ id →
    findJob (updateJob jobs id f) id' = findJob jobs id'
  | [], _, _, _, _ => rfl
  | (k, v) :: rest, id, id', f, hne => by
    rw [updateJob_cons]
    by_cases hk : k = id
    · have hki : ¬ k = id' := fun h => hne (h ▸ hk)
      rw [if_pos hk, findJob_cons, if_neg hki, findJob_cons, if_neg hki]
      exact findJob_updateJob_ne rest id id' f hne
    · rw [if_neg hk, findJob_cons, findJob_cons]
      by_cases hk' : k = id'
      · rw [if_pos hk', if_pos hk']
      · rw [if_neg hk', if_neg hk']
        exact findJob_updateJob_ne rest id id' f hne

theorem keys_updateJob : ∀ (jobs : List (String × Job)) (id : String) (f : Job → Job),
    (updateJob jobs id f).map Prod.fst = jobs.map Prod.fst
  | [], _, _ => rfl
  | (k, v) :: rest, id, f => by
    rw [updateJob_cons]
    by_cases hk : k = id
    · rw [if_pos hk]
      simp [keys_updateJob rest id f]
    · rw [if_neg hk]
      simp [keys_updateJob rest id f]

theorem findJob_mem : ∀ (jobs : List (String × Job)) (id : String) (j : Job),
    findJob jobs id = some j → (id, j) ∈ jobs
  | [], id, j, h => by simp [findJob] at h
  | (k, v) :: rest, id, j, h => by
    by_cases hk : k = id
    · subst hk
      simp [findJob] at h
      simp [h]
    · simp [findJob, hk] at h
      exact List.mem_cons_of_mem _ (findJob_mem rest id j h)

theorem findJob_eq_of_mem : ∀ (jobs : List (String × Job)) (id : String) (j : Job),
    (jobs.map Prod.fst).Nodup → (id, j) ∈ jobs → findJob jobs id = some j
  | [], id, j, _, h => by simp at h
  | (k, v) :: rest, id, j, hnd, h => by
    rcases List.mem_cons.mp h with h1 | h1
    · cases h1
      simp [findJob]
    · by_cases hk : k = id
      · subst hk
        exfalso
        have : k ∈ rest.map Prod.fst :=
          List.mem_map.mpr ⟨(k, j), h1, rfl⟩
        exact (List.nodup_cons.mp (by simpa using hnd)).1 this
      · simp only [findJob, hk, if_false]
        exact findJob_eq_of_mem rest id j (List.nodup_cons.mp (by simpa using hnd)).2 h1

theorem findJob_append_none : ∀ (jobs : List (String × Job)) (id k : String) (v : Job),
    findJob jobs id = none → id ≠ k → findJob (jobs ++ [(k, v)]) id = none
  | [], id, k, v, _, hne => by
    have : ¬ k = id := fun h => hne h.symm
    simp [findJob, this]
  | (k0, v0) :: rest, id, k, v, h, hne => by
    by_cases hk : k0 = id
    · simp [findJob, hk] at h
    · simp only [findJob, hk, if_false] at h
      simpa [findJob, hk] using findJob_append_none rest id k v h hne

/-! ## C4: duplicate add is rejected without any state change -/

/-- C4: for every store state and every id that already exists, `add_job`
raises the duplicate-id `ValueError` and returns with the job store, the
pending queue, and every other state component exactly as they were: the
existing job is not mutated, no record is created, nothing is enqueued. -/
theorem c4_duplicate_add (s : QMState) (id : String) (wf : Nat) (md : Option Nat)
    (j : Job) (hj : findJob s.jobs id = some j) :
    add_job s id wf md = (s, .error ("Job ID already exists: " ++ id)) := by
  simp [add_job, hj]

theorem c4_witness :
    add_job (add_job (initQM 3 true 3) "a" 0 none).1 "a" 1 none =
      ((add_job (initQM 3 true 3) "a" 0 none).1,
       .error ("Job ID already exists: " ++ "a")) :=
  c4_duplicate_add _ "a" 1 none { job_id := "a", workflow := 0 } (by decide)

/-! ## C5: cancel_job case analysis -/

/-- C5: cancelling a pending job marks it cancelled, fires `job_cancelled`
and returns true; cancelling a running job asks the external interrupt —
on success it marks the job cancelled, fires the event and returns true,
on failure it returns false leaving the whole state unchanged; cancelling
a terminal job returns false and changes nothing. -/
theorem c5_cancel_cases (s : QMState) (id : String) (ok : Bool) (j : Job)
    (hj : findJob s.jobs id = some j) :
    (j.status = .pending →
      cancel_job s id ok =
        ({ s with jobs := updateJob s.jobs id (fun j0 => { j0 with status := .cancelled }) },
         true, [⟨.job_cancelled, some id⟩])) ∧
    (j.status = .running →
      cancel_job s id true =
        ({ s with jobs := updateJob s.jobs id (fun j0 => { j0 with status := .cancelled }) },
         true, [⟨.job_cancelled, some id⟩])) ∧
    (j.status = .running → cancel_job s id false = (s, false, [])) ∧
    ((j.status = .completed ∨ j.status = .failed ∨ j.status = .cancelled) →
      cancel_job s id ok = (s, false, [])) := by
  refine ⟨?_, ?_, ?_, ?_⟩
  · intro h
    simp [cancel_job, hj, h]
  · intro h
    simp [cancel_job, hj, h]
  · intro h
    simp [cancel_job, hj, h]
  · intro h
    rcases h with h | h | h <;> simp [cancel_job, hj, h]

theorem c5_witness :
    cancel_job (add_job (initQM 3 true 3) "a" 0 none).1 "a" true =
      ({ (add_job (initQM 3 true 3) "a" 0 none).1 with
          jobs := updateJob (add_job (initQM 3 true 3) "a" 0 none).1.jobs "a"
            (fun j0 => { j0 with status := .cancelled }) },
       true, [⟨.job_cancelled, some "a"⟩]) :=
  (c5_cancel_cases _ "a" true { job_id := "a", workflow := 0 } (by decide)).1 rfl

/-! ## C7: statistics invariant -/

theorem counts_by_status : ∀ (l : List Job),
    (l.filter (fun j => decide (j.status = JobStatus.pending))).length +
    (l.filter (fun j => decide (j.status = JobStatus.running))).length +
    (l.filter (fun j => decide (j.status = JobStatus.completed))).length +
    (l.filter (fun j => decide (j.status = JobStatus.failed))).length +
    (l.filter (fun j => decide (j.status = JobStatus.cancelled))).length = l.length
  | [] => rfl
  | j :: rest => by
    have ih := counts_by_status rest
    cases h : j.status <;> simp [List.filter, h] <;> omega

theorem add_job_fresh (s : QMState) (id : String) (wf : Nat) (md : Option Nat)
    (h : findJob s.jobs id = none) :
    (add_job s id wf md).1 =
      { s with
          jobs := s.jobs ++ [(id, mkJob s id wf md)]
          job_queue := s.job_queue ++ [id]
          clock := s.clock + 1 } := by
  simp [add_job, h]

theorem addAll_length : ∀ (items : List (String × Nat)) (s : QMState),
    (items.map Prod.fst).Nodup →
    (∀ id ∈ items.map Prod.fst, findJob s.jobs id = none) →
    (addAll s items).jobs.length = s.jobs.length + items.length
  | [], s, _, _ => by simp [addAll]
  | (id, wf) :: rest, s, hnd, hfresh => by
    have h0 : findJob s.jobs id = none := hfresh id (by simp)
    have hnd' := List.nodup_cons.mp hnd
    have hstep := add_job_fresh s id wf none h0
    have hrest : ∀ id' ∈ rest.map Prod.fst,
        findJob (add_job s id wf none).1.jobs id' = none := by
      intro id' hid'
      have hne : id' ≠ id := fun h => hnd'.1 (h ▸ hid')
      rw [hstep]
      exact findJob_append_none _ _ _ _ (hfresh id' (by simp [hid'])) hne
    have ih := addAll_length rest (add_job s id wf none).1 hnd'.2 hrest
    have hlen : (add_job s id wf none).1.jobs.length = s.jobs.length + 1 := by
      rw [hstep]
      simp
    calc (addAll s ((id, wf) :: rest)).jobs.length
        = (addAll (add_job s id wf none).1 rest).jobs.length := by simp [addAll]
      _ = s.jobs.length + 1 + rest.length := by rw [ih, hlen]
      _ = s.jobs.length + ((id, wf) :: rest).length := by
            simp only [List.length_cons]
            omega

/-- C7: the per-status counts returned by `get_statistics` always sum to
`total_jobs`, and after any sequence of `add_job` calls with distinct ids
on a fresh manager, `total_jobs` equals the number of adds. -/
theorem c7_statistics (s : QMState) (items : List (String × Nat))
    (hnd : (items.map Prod.fst).Nodup) :
    (get_statistics s).pending + (get_statistics s).running +
      (get_statistics s).completed + (get_statistics s).failed +
      (get_statistics s).cancelled = (get_statistics s).total_jobs ∧
    (get_statistics (addAll (initQM 3 true 3) items)).total_jobs = items.length := by
  constructor
  · have := counts_by_status (s.jobs.map Prod.snd)
    simpa [get_statistics, get_jobs_by_status] using this
  · have := addAll_length items (initQM 3 true 3) hnd (by intro id _; rfl)
    simpa [get_statistics, initQM] using this

theorem c7_witness :
    (get_statistics (initQM 3 true 3)).pending +
      (get_statistics (initQM 3 true 3)).running +
      (get_statistics (initQM 3 true 3)).completed +
      (get_statistics (initQM 3 true 3)).failed +
      (get_statistics (initQM 3 true 3)).cancelled =
      (get_statistics (initQM 3 true 3)).total_jobs ∧
    (get_statistics (addAll (initQM 3 true 3) [("a", 0), ("b", 1)])).total_jobs = 2 :=
  c7_statistics (initQM 3 true 3) [("a", 0), ("b", 1)] (by decide)

/-! ## C8 and C10: wait_for_completion -/

/-- C8: the drain loop returns normally only when it has observed a
snapshot with an empty pending queue and an empty running set, and then
fires `queue_empty` exactly once; with a truthy timeout that elapses first
it raises the timeout error instead, handing back the observed snapshot
untouched (the loop only reads). -/
theorem c8_wait (timeout : Option Nat) :
    ∀ (trace : List QMState) (elapsed : Nat) (s : QMState) (evs : List Event)
      (msg : String),
    (wait_for_completion timeout trace elapsed = some (s, .ok evs) →
      drainedState s = true ∧ evs = [⟨.queue_empty, none⟩] ∧ s ∈ trace) ∧
    (wait_for_completion timeout trace elapsed = some (s, .error msg) →
      timeoutTruthy timeout = true ∧ drainedState s = false ∧ s ∈ trace)
  | [], elapsed, s, evs, msg => by
    constructor <;> intro h <;> simp [wait_for_completion] at h
  | s0 :: rest, elapsed, s, evs, msg => by
    have ih := c8_wait timeout rest (elapsed + 1) s evs msg
    constructor <;> intro h
    · cases hd : drainedState s0 with
      | true =>
        simp [wait_for_completion, hd] at h
        obtain ⟨rfl, rfl⟩ := h
        exact ⟨hd, rfl, by simp⟩
      | false =>
        cases htm : timeoutTruthy timeout && decide (elapsed > timeout.getD 0) with
        | true => simp [wait_for_completion, hd, htm] at h
        | false =>
          simp only [wait_for_completion, hd, htm, Bool.false_eq_true, if_false] at h
          obtain ⟨h1, h2, h3⟩ := ih.1 h
          exact ⟨h1, h2, by simp [h3]⟩
    · cases hd : drainedState s0 with
      | true => simp [wait_for_completion, hd] at h
      | false =>
        cases htm : timeoutTruthy timeout && decide (elapsed > timeout.getD 0) with
        | true =>
          simp [wait_for_completion, hd, htm] at h
          obtain ⟨rfl, -⟩ := h
          have h1 : timeoutTruthy timeout = true := by
            cases hb : timeoutTruthy timeout
            · rw [hb] at htm
              simp at htm
            · rfl
          exact ⟨h1, hd, by simp⟩
        | false =>
          simp only [wait_for_completion, hd, htm, Bool.false_eq_true, if_false] at h
          obtain ⟨h1, h2, h3⟩ := ih.2 h
          exact ⟨h1, h2, by simp [h3]⟩

theorem c8_witness :
    drainedState (initQM 3 true 3) = true ∧
    [(⟨.queue_empty, none⟩ : Event)] = [⟨.queue_empty, none⟩] ∧
    initQM 3 true 3 ∈ [initQM 3 true 3] :=
  (c8_wait none [initQM 3 true 3] 0 (initQM 3 true 3) [⟨.queue_empty, none⟩] "x").1 rfl

/-- C10: a timeout of `0` is falsy in `if timeout and ...`, so
`wait_for_completion` with timeout `0` behaves exactly like the call with
no timeout: it never raises and polls until the drain condition holds. -/
theorem c10_zero_timeout :
    timeoutTruthy (some 0) = false ∧
    ∀ (trace : List QMState) (elapsed : Nat),
      wait_for_completion (some 0) trace elapsed =
        wait_for_completion none trace elapsed := by
  refine ⟨rfl, ?_⟩
  intro trace
  induction trace with
  | nil => intro _; rfl
  | cons s0 rest ih =>
    intro elapsed
    simp [wait_for_completion, timeoutTruthy, ih]

/-! ## C9: event firing -/

/-- C9: firing an event runs every listener registered for the kind, in
registration order, passing the affected job; each invocation's observable
actions all happen, a raising listener stops neither the later listeners
nor the firing code (the result type of `trigger_callbacks` has no error
component), and `on_event` appends at the tail of the kind's list. -/
theorem c9_event_firing :
    (∀ (cbs : List Callback) (job : Option Job),
      trigger_callbacks cbs job = (cbs.map (fun cb => (cb job).actions)).flatten) ∧
    (∀ (cb : Callback) (cbs : List Callback) (job : Option Job),
      trigger_callbacks (cb :: cbs) job = (cb job).actions ++ trigger_callbacks cbs job) ∧
    (∀ (bus : EventBus) (e : EventType) (cb : Callback),
      listeners (on_event bus e cb) e = listeners bus e ++ [cb]) ∧
    (∀ (bus : EventBus) (e : EventType) (job : Option Job),
      fireEvent bus e job = ((listeners bus e).map (fun cb => (cb job).actions)).flatten) := by
  have hflat : ∀ (cbs : List Callback) (job : Option Job),
      trigger_callbacks cbs job = (cbs.map (fun cb => (cb job).actions)).flatten := by
    intro cbs job
    induction cbs with
    | nil => rfl
    | cons cb rest ih => simp [trigger_callbacks, ih]
  refine ⟨hflat, ?_, ?_, ?_⟩
  · intro cb cbs job
    rfl
  · intro bus e cb
    cases e <;> rfl
  · intro bus e job
    exact hflat _ _

/-! ## Unfolding lemmas for the sequential worker replay -/

theorem runQueue_cons_process (s : QMState) (id : String) (rest : List String) (j : Job)
    (dr : DispatchResult) (drs : List DispatchResult)
    (hq : s.job_queue = id :: rest)
    (hj : findJob s.jobs id = some j)
    (hnc : ¬ j.status = .cancelled) :
    runQueue s (dr :: drs) =
      ((runQueue (process_job { s with job_queue := rest } id dr).1 drs).1,
        (process_job { s with job_queue := rest } id dr).2 ++
        (runQueue (process_job { s with job_queue := rest } id dr).1 drs).2) := by
  simp [runQueue, hq, popNext, hj, hnc]

theorem process_job_fail_retry (s : QMState) (id : String) (j : Job) (msg : String)
    (hj : findJob s.jobs id = some j)
    (hro : s.retry_on_failure = true)
    (hle : j.retry_count + 1 ≤ s.max_retries) :
    process_job s id (.qpError msg) =
      ({ s with
          jobs := updateJob s.jobs id (fun _ =>
            { j with status := .pending, started_at := some s.clock,
                     error := some msg, retry_count := j.retry_count + 1 })
          job_queue := s.job_queue ++ [id]
          running_jobs := (s.running_jobs ++ [id]).erase id
          clock := s.clock + 2 },
       [⟨.job_started, some id⟩]) := by
  simp [process_job, hj, applyDispatch, failUpdate, hro, hle]

theorem process_job_fail_terminal (s : QMState) (id : String) (j : Job) (msg : String)
    (hj : findJob s.jobs id = some j)
    (hgt : ¬ (s.retry_on_failure = true ∧ j.retry_count + 1 ≤ s.max_retries)) :
    process_job s id (.qpError msg) =
      ({ s with
          jobs := updateJob s.jobs id (fun _ =>
            { j with status := .failed, started_at := some s.clock,
                     error := some msg, retry_count := j.retry_count + 1,
                     completed_at := some (s.clock + 1) })
          running_jobs := (s.running_jobs ++ [id]).erase id
          clock := s.clock + 2 },
       [⟨.job_started, some id⟩, ⟨.job_failed, some j.job_id⟩]) := by
  simp [process_job, hj, applyDispatch, failUpdate, hgt]

theorem process_job_success (s : QMState) (id : String) (j : Job) (pid : String)
    (hist : Nat) (hj : findJob s.jobs id = some j) :
    process_job s id (.success pid hist) =
      ({ s with
          jobs := updateJob s.jobs id (fun _ =>
            { j with status := .completed, started_at := some s.clock,
                     prompt_id := some pid, result := some hist,
                     completed_at := some (s.clock + 1) })
          running_jobs := (s.running_jobs ++ [id]).erase id
          clock := s.clock + 2 },
       [⟨.job_started, some id⟩, ⟨.job_completed, some j.job_id⟩]) := by
  simp [process_job, hj, applyDispatch]

/-- Replaying `k` consecutive failing dispatch attempts of the only queued
job keeps it pending with its retry counter advanced by `k` and its error
field set by the last failure, as long as the counter stays within
`max_retries`. -/
theorem runQueue_all_fail (msg : String) : ∀ (k : Nat) (s : QMState) (id : String)
    (j : Job) (more : List DispatchResult),
    s.retry_on_failure = true →
    s.job_queue = [id] →
    findJob s.jobs id = some j →
    j.status = .pending →
    j.retry_count + k ≤ s.max_retries →
    ∃ (s' : QMState) (j' : Job),
      (runQueue s (List.replicate k (DispatchResult.qpError msg) ++ more)).1 =
        (runQueue s' more).1 ∧
      s'.retry_on_failure = true ∧
      s'.max_retries = s.max_retries ∧
      s'.job_queue = [id] ∧
      findJob s'.jobs id = some j' ∧
      j'.status = .pending ∧
      j'.retry_count = j.retry_count + k ∧
      j'.result = j.result ∧
      j'.prompt_id = j.prompt_id ∧
      j'.error = (if k = 0 then j.error else some msg)
  | 0, s, id, j, more, hro, hq, hj, hst, hle => by
    refine ⟨s, j, rfl, hro, rfl, hq, hj, hst, rfl, rfl, rfl, ?_⟩
    simp
  | (k + 1), s, id, j, more, hro, hq, hj, hst, hle => by
    have hnc : ¬ j.status = .cancelled := by simp [hst]
    have hle1 : j.retry_count + 1 ≤ s.max_retries := by omega
    have hstep := runQueue_cons_process s id [] j (.qpError msg)
      (List.replicate k (DispatchResult.qpError msg) ++ more) hq hj hnc
    set j2 : Job :=
      { j with status := .pending, started_at := some s.clock,
               error := some msg, retry_count := j.retry_count + 1 } with hj2
    have hpr : process_job { s with job_queue := [] } id (.qpError msg) =
        ({ s with
            jobs := updateJob s.jobs id (fun _ => j2)
            job_queue := [id]
            running_jobs := (s.running_jobs ++ [id]).erase id
            clock := s.clock + 2 },
         [⟨.job_started, some id⟩]) := by
      rw [process_job_fail_retry { s with job_queue := [] } id j msg hj hro hle1]
      rfl
    obtain ⟨s', j', ih1, ih2, ih3, ih4, ih5, ih6, ih7, ih8, ih9, ih10⟩ :=
      runQueue_all_fail msg k (process_job { s with job_queue := [] } id (.qpError msg)).1
        id j2 more (by rw [hpr]; exact hro) (by rw [hpr])
        (by rw [hpr]; exact findJob_updateJob_self s.jobs id (fun _ => j2) j hj)
        rfl (by rw [hpr]; simp [hj2]; omega)
    refine ⟨s', j', ?_, ih2, ?_, ih4, ih5, ih6, ?_, ?_, ?_, ?_⟩
    · rw [List.replicate_succ, List.cons_append, hstep]
      exact ih1
    · rw [ih3, hpr]
    · have hrc : j2.retry_count = j.retry_count + 1 := rfl
      rw [ih7, hrc]
      omega
    · rw [ih8, hj2]
    · rw [ih9, hj2]
    · rw [ih10, hj2]
      simp

/-! ## C1: retry policy -/

/-- The requeue decision of the except-branch: retry exactly when retry is
enabled and the incremented counter is still within `max_retries`, i.e.
when the counter before the increment was strictly below it. -/
theorem failUpdate_requeue_iff (b : Bool) (R' c : Nat) (m : String) (j : Job) :
    (failUpdate b R' c m j).2 = true ↔ (b = true ∧ j.retry_count + 1 ≤ R') := by
  unfold failUpdate
  dsimp only
  split
  · rename_i hcond
    simpa using hcond
  · rename_i hcond
    simpa using hcond

/-- C1 (amended): with `retry_on_failure = true` and `max_retries = R`, a
job whose dispatch attempts all fail ends terminally `failed` with
`retry_count = R + 1` — the counter is incremented on the final,
non-retried failure as well; and a failed dispatch attempt is retried
(re-enqueued pending) iff retry is enabled and the `retry_count` before
the increment is strictly below `max_retries`, otherwise the job
transitions terminally to `failed`. -/
theorem c1_retry_policy (R : Nat) (id msg : String) (wf : Nat) :
    (∃ j', findJob (runQueue (add_job (initQM 3 true R) id wf none).1
        (List.replicate (R + 1) (DispatchResult.qpError msg))).1.jobs id = some j' ∧
      j'.status = .failed ∧ j'.retry_count = R + 1) ∧
    (∀ (b : Bool) (R' c : Nat) (m : String) (j : Job),
      ((failUpdate b R' c m j).2 = true ↔ (b = true ∧ j.retry_count < R')) ∧
      ((failUpdate b R' c m j).2 = false →
        (failUpdate b R' c m j).1.status = .failed)) := by
  constructor
  · have hfresh := add_job_fresh (initQM 3 true R) id wf none rfl
    have hle0 : (mkJob (initQM 3 true R) id wf none).retry_count + R ≤
        (add_job (initQM 3 true R) id wf none).1.max_retries := by
      rw [hfresh]
      simp [mkJob, initQM]
    obtain ⟨s', j', h1, h2, h3, h4, h5, h6, h7, h8, h9, h10⟩ :=
      runQueue_all_fail msg R (add_job (initQM 3 true R) id wf none).1 id
        (mkJob (initQM 3 true R) id wf none) [DispatchResult.qpError msg]
        (by rw [hfresh]; rfl) (by rw [hfresh]; rfl)
        (by rw [hfresh]; simp [findJob, initQM]) rfl hle0
    have hmr : s'.max_retries = R := by rw [h3, hfresh]; rfl
    have hnc' : ¬ j'.status = .cancelled := by simp [h6]
    have hterm := process_job_fail_terminal { s' with job_queue := [] } id j' msg h5
      (by
        rintro ⟨-, hc⟩
        have hc' : j'.retry_count + 1 ≤ s'.max_retries := hc
        rw [h7, hmr] at hc'
        omega)
    have hstep := runQueue_cons_process s' id [] j' (.qpError msg) [] h4 h5 hnc'
    set jF : Job := { j' with
        status := .failed
        started_at := some s'.clock
        error := some msg
        retry_count := j'.retry_count + 1
        completed_at := some (s'.clock + 1) } with hjF
    have hfin : (runQueue s' [DispatchResult.qpError msg]).1 =
        { s' with
            jobs := updateJob s'.jobs id (fun _ => jF)
            job_queue := []
            running_jobs := (s'.running_jobs ++ [id]).erase id
            clock := s'.clock + 2 } := by
      rw [hstep, hterm]
      rfl
    rw [List.replicate_succ', h1, hfin]
    refine ⟨jF, findJob_updateJob_self s'.jobs id (fun _ => jF) j' h5, rfl, ?_⟩
    show j'.retry_count + 1 = R + 1
    rw [h7]
    have : (mkJob (initQM 3 true R) id wf none).retry_count = 0 := rfl
    omega
  · intro b R' c m j
    constructor
    · rw [failUpdate_requeue_iff]
      constructor
      · rintro ⟨hb, hle'⟩
        exact ⟨hb, by omega⟩
      · rintro ⟨hb, hlt⟩
        exact ⟨hb, by omega⟩
    · intro h2
      unfold failUpdate at h2 ⊢
      dsimp only at h2 ⊢
      split at h2
      · simp at h2
      · rename_i hcond
        rw [if_neg hcond]

/-- C1 counterexample: with `max_retries = 1`, a job whose two dispatch
attempts both fail ends `failed` with `retry_count = 2`, not `1` as the
claim states. -/
theorem c1_counterexample :
    (findJob (runQueue (add_job (initQM 3 true 1) "a" 0 none).1
        (List.replicate 2 (DispatchResult.qpError "e"))).1.jobs "a").map Job.status =
      some JobStatus.failed ∧
    (findJob (runQueue (add_job (initQM 3 true 1) "a" 0 none).1
        (List.replicate 2 (DispatchResult.qpError "e"))).1.jobs "a").map Job.retry_count =
      some 2 ∧
    ¬ ((findJob (runQueue (add_job (initQM 3 true 1) "a" 0 none).1
        (List.replicate 2 (DispatchResult.qpError "e"))).1.jobs "a").map Job.retry_count =
      some 1) := by
  decide

theorem c1_witness :
    ∃ j', findJob (runQueue (add_job (initQM 3 true 0) "w" 0 none).1
        (List.replicate 1 (DispatchResult.qpError "m"))).1.jobs "w" = some j' ∧
      j'.status = .failed ∧ j'.retry_count = 1 :=
  (c1_retry_policy 0 "w" "m" 0).1

/-! ## C2: result and error fields -/

/-- C2 (amended): `result` is set only at the terminal transition into
`completed`, but `error` is written by every failed dispatch attempt —
including non-terminal, retried ones — and is never cleared; so a job that
fails `k ≥ 1` attempts and then completes ends with `result` and `error`
both non-null, while a job that completes on its first attempt has a null
`error`. -/
theorem c2_result_error (R k : Nat) (id msg pid : String) (wf hist : Nat)
    (hk : k ≤ R) :
    ∃ j', findJob (runQueue (add_job (initQM 3 true R) id wf none).1
        (List.replicate k (DispatchResult.qpError msg) ++
          [DispatchResult.success pid hist])).1.jobs id = some j' ∧
      j'.status = .completed ∧ j'.result = some hist ∧
      j'.error = (if k = 0 then none else some msg) := by
  have hfresh := add_job_fresh (initQM 3 true R) id wf none rfl
  obtain ⟨s', j', h1, h2, h3, h4, h5, h6, h7, h8, h9, h10⟩ :=
    runQueue_all_fail msg k (add_job (initQM 3 true R) id wf none).1 id
      (mkJob (initQM 3 true R) id wf none) [DispatchResult.success pid hist]
      (by rw [hfresh]; rfl) (by rw [hfresh]; rfl)
      (by rw [hfresh]; simp [findJob, initQM]) rfl
      (by rw [hfresh]; simp [mkJob, initQM]; omega)
  have hnc' : ¬ j'.status = .cancelled := by simp [h6]
  have hstep := runQueue_cons_process s' id [] j' (.success pid hist) [] h4 h5 hnc'
  have hsucc := process_job_success { s' with job_queue := [] } id j' pid hist h5
  set jF : Job := { j' with
      status := .completed
      started_at := some s'.clock
      prompt_id := some pid
      result := some hist
      completed_at := some (s'.clock + 1) } with hjF
  have hfin : (runQueue s' [DispatchResult.success pid hist]).1 =
      { s' with
          jobs := updateJob s'.jobs id (fun _ => jF)
          job_queue := []
          running_jobs := (s'.running_jobs ++ [id]).erase id
          clock := s'.clock + 2 } := by
    rw [hstep, hsucc]
    rfl
  rw [h1, hfin]
  refine ⟨jF, findJob_updateJob_self s'.jobs id (fun _ => jF) j' h5, rfl, rfl, ?_⟩
  show j'.error = if k = 0 then none else some msg
  rw [h10]
  simp [mkJob]

/-- C2 counterexample: a job that fails its first dispatch and completes on
the second ends `completed` with `result` set and `error` still set from
the failed attempt — the two fields are not mutually exclusive and the
error of a job that eventually completes is not null. -/
theorem c2_counterexample :
    (findJob (runQueue (add_job (initQM 3 true 3) "a" 0 none).1
        [DispatchResult.qpError "boom", DispatchResult.success "p" 7]).1.jobs "a").map
      Job.status = some JobStatus.completed ∧
    (findJob (runQueue (add_job (initQM 3 true 3) "a" 0 none).1
        [DispatchResult.qpError "boom", DispatchResult.success "p" 7]).1.jobs "a").map
      Job.result = some (some 7) ∧
    (findJob (runQueue (add_job (initQM 3 true 3) "a" 0 none).1
        [DispatchResult.qpError "boom", DispatchResult.success "p" 7]).1.jobs "a").map
      Job.error = some (some "boom") ∧
    ¬ ((findJob (runQueue (add_job (initQM 3 true 3) "a" 0 none).1
        [DispatchResult.qpError "boom", DispatchResult.success "p" 7]).1.jobs "a").map
      Job.error = some none) := by
  decide

theorem c2_witness :
    ∃ j', findJob (runQueue (add_job (initQM 3 true 3) "w" 0 none).1
        (List.replicate 1 (DispatchResult.qpError "m") ++
          [DispatchResult.success "p" 9])).1.jobs "w" = some j' ∧
      j'.status = .completed ∧ j'.result = some 9 ∧
      j'.error = (if 1 = 0 then none else some "m") :=
  c2_result_error 3 1 "w" "m" "p" 0 9 (by omega)

/-! ## List lemmas for the interleaving invariants -/

theorem findJob_updateJob_none : ∀ (jobs : List (String × Job)) (id : String)
    (f : Job → Job), findJob jobs id = none → findJob (updateJob jobs id f) id = none
  | [], _, _, _ => rfl
  | (k, v) :: rest, id, f, h => by
    rw [findJob_cons] at h
    rw [updateJob_cons]
    by_cases hk : k = id
    · rw [if_pos hk] at h
      cases h
    · rw [if_neg hk] at h
      rw [if_neg hk, findJob_cons, if_neg hk]
      exact findJob_updateJob_none rest id f h

theorem get?_set_cases {α : Type} : ∀ (l : List α) (i n : Nat) (a b : α),
    (l.set i a).get? n = some b → b = a ∨ l.get? n = some b
  | [], i, n, a, b, h => by simp at h
  | x :: xs, 0, 0, a, b, h => by
    simp at h
    exact Or.inl h.symm
  | x :: xs, 0, (n+1), a, b, h => by
    simp at h
    exact Or.inr (by simpa using h)
  | x :: xs, (i+1), 0, a, b, h => by
    simp at h
    exact Or.inr (by simpa using h)
  | x :: xs, (i+1), (n+1), a, b, h => by
    simp only [List.set_cons_succ, List.get?_cons_succ] at h
    exact get?_set_cases xs i n a b h

theorem mem_filterMap_cons_of_mem {α β : Type} (f : α → Option β) (a : α)
    (ys : List α) (x : β) (h : x ∈ ys.filterMap f) : x ∈ (a :: ys).filterMap f := by
  rw [List.filterMap_cons]
  cases f a with
  | none => exact h
  | some z => exact List.mem_cons_of_mem _ h

theorem mem_filterMap_set {α β : Type} (f : α → Option β) :
    ∀ (l : List α) (i : Nat) (a : α) (x : β),
    x ∈ l.filterMap f →
    x ∈ (l.set i a).filterMap f ∨ (∃ b, l.get? i = some b ∧ f b = some x)
  | [], i, a, x, h => by simp at h
  | y :: ys, 0, a, x, h => by
    rw [List.filterMap_cons] at h
    cases hy : f y with
    | none =>
      rw [hy] at h
      exact Or.inl (mem_filterMap_cons_of_mem f a ys x h)
    | some z =>
      rw [hy] at h
      rcases List.mem_cons.mp h with rfl | h1
      · exact Or.inr ⟨y, by simp, hy⟩
      · exact Or.inl (mem_filterMap_cons_of_mem f a ys x h1)
  | y :: ys, (i+1), a, x, h => by
    rw [List.filterMap_cons] at h
    rw [List.set_cons_succ]
    cases hy : f y with
    | none =>
      rw [hy] at h
      rcases mem_filterMap_set f ys i a x h with h1 | ⟨b, hb, hfb⟩
      · exact Or.inl (mem_filterMap_cons_of_mem f y _ x h1)
      · exact Or.inr ⟨b, by simpa using hb, hfb⟩
    | some z =>
      rw [hy] at h
      rcases List.mem_cons.mp h with rfl | h1
      · refine Or.inl ?_
        rw [List.filterMap_cons, hy]
        exact List.mem_cons_self _ _
      · rcases mem_filterMap_set f ys i a x h1 with h2 | ⟨b, hb, hfb⟩
        · exact Or.inl (mem_filterMap_cons_of_mem f y _ x h2)
        · exact Or.inr ⟨b, by simpa using hb, hfb⟩

theorem mem_filterMap_set_self {α β : Type} (f : α → Option β) :
    ∀ (l : List α) (i : Nat) (a : α) (x : β) (b0 : α),
    l.get? i = some b0 → f a = some x → x ∈ (l.set i a).filterMap f
  | [], i, a, x, b0, h, _ => by simp at h
  | y :: ys, 0, a, x, b0, h, hfa => by
    simp only [List.set_cons_zero]
    rw [List.filterMap_cons, hfa]
    exact List.mem_cons_self _ _
  | y :: ys, (i+1), a, x, b0, h, hfa => by
    simp only [List.get?_cons_succ] at h
    simp only [List.set_cons_succ]
    exact mem_filterMap_cons_of_mem f y _ x
      (mem_filterMap_set_self f ys i a x b0 h hfa)

theorem held_set_of_old_none (ws : List WorkerPC) (i : Nat) (pc0 pc1 : WorkerPC)
    (hpc : ws.get? i = some pc0) (h0 : pcHeld pc0 = none)
    (x : String) (hx : x ∈ heldIds ws) : x ∈ heldIds (ws.set i pc1) := by
  rcases mem_filterMap_set pcHeld ws i pc1 x hx with h | ⟨b, hb, hfb⟩
  · exact h
  · rw [hpc] at hb
    obtain rfl : pc0 = b := Option.some.inj hb
    rw [h0] at hfb
    cases hfb

/-! ## Step preservation lemmas -/

theorem cancel_job_jobs (s : QMState) (id : String) (ok : Bool) :
    (cancel_job s id ok).1.jobs = s.jobs ∨
    (cancel_job s id ok).1.jobs =
      updateJob s.jobs id (fun j => { j with status := .cancelled }) := by
  cases hfind : findJob s.jobs id with
  | none => exact Or.inl (by simp [cancel_job, hfind])
  | some j =>
    by_cases h1 : j.status = .pending
    · exact Or.inr (by simp [cancel_job, hfind, h1])
    · by_cases h2 : j.status = .running
      · cases ok
        · exact Or.inl (by simp [cancel_job, hfind, h1, h2])
        · exact Or.inr (by simp [cancel_job, hfind, h1, h2])
      · exact Or.inl (by simp [cancel_job, hfind, h1, h2])

theorem failUpdate_status (b : Bool) (R c : Nat) (m : String) (j : Job) :
    (failUpdate b R c m j).1.status = .pending ∨
    (failUpdate b R c m j).1.status = .failed := by
  unfold failUpdate
  dsimp only
  split
  · exact Or.inl rfl
  · exact Or.inr rfl

theorem applyDispatch_not_running (b : Bool) (R c : Nat) (dr : DispatchResult)
    (j : Job) : ¬ (applyDispatch b R c dr j).1.status = .running := by
  cases dr with
  | success pid hist => simp [applyDispatch]
  | waitError pid m =>
    have h := failUpdate_status b R c m { j with prompt_id := some pid }
    rcases h with h | h <;> simp [applyDispatch, h]
  | noPromptId =>
    have h := failUpdate_status b R c "No prompt_id received" { j with prompt_id := none }
    rcases h with h | h <;> simp [applyDispatch, h]
  | qpError m =>
    have h := failUpdate_status b R c m j
    rcases h with h | h <;> simp [applyDispatch, h]

theorem step_jobs_keys (s t : PoolState) (h : Step s t) :
    t.jobs.map Prod.fst = s.jobs.map Prod.fst := by
  cases h with
  | checkPass i hpc hlt ht => rw [ht]
  | dequeue i id q hpc hq ht => rw [ht]
  | skipCancelled i id j hpc hj hc ht => rw [ht]
  | missingJob i id hpc hj ht => rw [ht]
  | passCheck i id j hpc hj hc ht => rw [ht]
  | beginProcess i id j hpc hj ht =>
    rw [ht]
    exact keys_updateJob s.jobs id
      (fun j0 => { j0 with status := .running, started_at := some s.clock })
  | finishProcess i id j dr hpc hj ht =>
    rw [ht]
    exact keys_updateJob s.jobs id
      (fun _ => (applyDispatch s.retry_on_failure s.max_retries s.clock dr j).1)
  | cancelAct id ok ht =>
    rw [ht]
    rcases cancel_job_jobs s.toQMState id ok with hc | hc
    · show (cancel_job s.toQMState id ok).1.jobs.map Prod.fst = _
      rw [hc]
    · show (cancel_job s.toQMState id ok).1.jobs.map Prod.fst = _
      rw [hc]
      exact keys_updateJob s.jobs id _

theorem step_workers_length (s t : PoolState) (h : Step s t) :
    t.workers.length = s.workers.length := by
  cases h with
  | checkPass i hpc hlt ht => rw [ht]; exact List.length_set _ _ _
  | dequeue i id q hpc hq ht => rw [ht]; exact List.length_set _ _ _
  | skipCancelled i id j hpc hj hc ht => rw [ht]; exact List.length_set _ _ _
  | missingJob i id hpc hj ht => rw [ht]; exact List.length_set _ _ _
  | passCheck i id j hpc hj hc ht => rw [ht]; exact List.length_set _ _ _
  | beginProcess i id j hpc hj ht => rw [ht]; exact List.length_set _ _ _
  | finishProcess i id j dr hpc hj ht => rw [ht]; exact List.length_set _ _ _
  | cancelAct id ok ht => rw [ht]

theorem step_held (s t : PoolState) (hstep : Step s t) (hinv : HeldInv s) :
    HeldInv t := by
  cases hstep with
  | checkPass i hpc hlt ht =>
    subst ht
    intro id j hj hrun
    exact held_set_of_old_none s.workers i _ _ hpc rfl id (hinv id j hj hrun)
  | dequeue i id0 q hpc hq ht =>
    subst ht
    intro id j hj hrun
    exact held_set_of_old_none s.workers i _ _ hpc rfl id (hinv id j hj hrun)
  | skipCancelled i id0 j0 hpc hj0 hc ht =>
    subst ht
    intro id j hj hrun
    exact held_set_of_old_none s.workers i _ _ hpc rfl id (hinv id j hj hrun)
  | missingJob i id0 hpc hj0 ht =>
    subst ht
    intro id j hj hrun
    exact held_set_of_old_none s.workers i _ _ hpc rfl id (hinv id j hj hrun)
  | passCheck i id0 j0 hpc hj0 hc ht =>
    subst ht
    intro id j hj hrun
    exact held_set_of_old_none s.workers i _ _ hpc rfl id (hinv id j hj hrun)
  | beginProcess i id0 j0 hpc hj0 ht =>
    subst ht
    intro id j hj hrun
    by_cases hid : id = id0
    · subst hid
      exact mem_filterMap_set_self pcHeld s.workers i (.processing id) id _ hpc rfl
    · have hj' : findJob s.jobs id = some j := by
        rw [findJob_updateJob_ne s.jobs id0 id _ hid] at hj
        exact hj
      exact held_set_of_old_none s.workers i _ _ hpc rfl id (hinv id j hj' hrun)
  | finishProcess i id0 j0 dr hpc hj0 ht =>
    subst ht
    intro id j hj hrun
    by_cases hid : id = id0
    · subst hid
      exfalso
      rw [findJob_updateJob_self s.jobs id _ j0 hj0] at hj
      obtain rfl := Option.some.inj hj
      exact applyDispatch_not_running s.retry_on_failure s.max_retries s.clock dr j0 hrun
    · have hj' : findJob s.jobs id = some j := by
        rw [findJob_updateJob_ne s.jobs id0 id _ hid] at hj
        exact hj
      rcases mem_filterMap_set pcHeld s.workers i .idle id (hinv id j hj' hrun) with
        h | ⟨b, hb, hfb⟩
      · exact h
      · rw [hpc] at hb
        obtain rfl := Option.some.inj hb
        exact absurd (Option.some.inj hfb).symm hid
  | cancelAct id0 ok ht =>
    subst ht
    intro id j hj hrun
    have hjq : findJob (cancel_job s.toQMState id0 ok).1.jobs id = some j := hj
    rcases cancel_job_jobs s.toQMState id0 ok with hc | hc
    · rw [hc] at hjq
      exact hinv id j hjq hrun
    · rw [hc] at hjq
      by_cases hid : id = id0
      · subst hid
        exfalso
        cases horig : findJob s.jobs id with
        | none =>
          rw [findJob_updateJob_none s.jobs id _ horig] at hjq
          cases hjq
        | some jc =>
          rw [findJob_updateJob_self s.jobs id _ jc horig] at hjq
          obtain rfl := Option.some.inj hjq
          cases hrun
      · rw [findJob_updateJob_ne s.jobs id0 id _ hid] at hjq
        exact hinv id j hjq hrun

/-! ## Reachability invariants and the running-count bound -/

theorem reach_held (init s : PoolState) (h : Reachable init s)
    (hinv : HeldInv init) : HeldInv s := by
  induction h with
  | refl => exact hinv
  | tail hab hbc ih => exact step_held _ _ hbc ih

theorem reach_keys (init s : PoolState) (h : Reachable init s) :
    s.jobs.map Prod.fst = init.jobs.map Prod.fst := by
  induction h with
  | refl => rfl
  | tail hab hbc ih => rw [step_jobs_keys _ _ hbc, ih]

theorem reach_workers_length (init s : PoolState) (h : Reachable init s) :
    s.workers.length = init.workers.length := by
  induction h with
  | refl => rfl
  | tail hab hbc ih => rw [step_workers_length _ _ hbc, ih]

theorem mem_runningIds_of_findJob (s : QMState) (id : String) (j : Job)
    (hj : findJob s.jobs id = some j) (hrun : j.status = JobStatus.running) :
    id ∈ runningIds s := by
  have hmem := findJob_mem s.jobs id j hj
  exact List.mem_map.mpr
    ⟨(id, j), List.mem_filter.mpr ⟨hmem, by simp [hrun]⟩, rfl⟩

theorem runningIds_nodup (s : QMState) (hnd : (s.jobs.map Prod.fst).Nodup) :
    (runningIds s).Nodup :=
  hnd.sublist ((List.filter_sublist s.jobs).map Prod.fst)

theorem runningIds_sub_held (s : PoolState) (hnd : (s.jobs.map Prod.fst).Nodup)
    (hinv : HeldInv s) : ∀ id ∈ runningIds s.toQMState, id ∈ heldIds s.workers := by
  intro id hid
  rcases List.mem_map.mp hid with ⟨⟨id0, j⟩, hmem, hfst⟩
  rcases List.mem_filter.mp hmem with ⟨hmem0, hstat⟩
  have hrun : j.status = JobStatus.running := by simpa using hstat
  cases hfst
  exact hinv id0 j (findJob_eq_of_mem s.jobs id0 j hnd hmem0) hrun

theorem length_le_of_nodup_subset {α : Type} [DecidableEq α] (l1 l2 : List α)
    (hnd : l1.Nodup) (hsub : ∀ x ∈ l1, x ∈ l2) : l1.length ≤ l2.length :=
  (hnd.subperm (fun _ hx => hsub _ hx)).length_le

theorem heldIds_length_le (ws : List WorkerPC) : (heldIds ws).length ≤ ws.length :=
  List.length_filterMap_le pcHeld ws

/-- C3 (amended): the scheduler does not enforce the `max_concurrent` bound
itself — the limit check of `_worker` line 238 is a non-atomic test — but in
every state reachable from a quiescent start the number of jobs with status
`running` is bounded by the number of started worker threads, because each
running job is held by the (unique) worker that set it running. -/
theorem c3_running_bound (init s : PoolState)
    (hw : ∀ i pc, init.workers.get? i = some pc → pc = .idle)
    (hnr : runningIds init.toQMState = [])
    (hnd : (init.jobs.map Prod.fst).Nodup)
    (hreach : Reachable init s) :
    (runningIds s.toQMState).length ≤ init.workers.length := by
  have hinv0 : HeldInv init := by
    intro id j hj hrun
    exfalso
    have hmem := mem_runningIds_of_findJob init.toQMState id j hj hrun
    rw [hnr] at hmem
    cases hmem
  have hinv := reach_held init s hreach hinv0
  have hkeys := reach_keys init s hreach
  have hlen := reach_workers_length init s hreach
  have hnd' : (s.jobs.map Prod.fst).Nodup := by
    rw [hkeys]
    exact hnd
  calc (runningIds s.toQMState).length
      ≤ (heldIds s.workers).length :=
        length_le_of_nodup_subset _ _ (runningIds_nodup s.toQMState hnd')
          (runningIds_sub_held s hnd' hinv)
    _ ≤ s.workers.length := heldIds_length_le s.workers
    _ = init.workers.length := hlen

theorem c3_witness :
    (runningIds (PoolState.mk (initQM 1 true 0) [WorkerPC.idle]).toQMState).length ≤
      (PoolState.mk (initQM 1 true 0) [WorkerPC.idle]).workers.length :=
  c3_running_bound (PoolState.mk (initQM 1 true 0) [WorkerPC.idle]) _
    (by
      intro i pc h
      cases i with
      | zero => exact (Option.some.inj h).symm
      | succ n => simp at h)
    rfl List.nodup_nil Relation.ReflTransGen.refl

/-- C3 counterexample: from a quiescent start with `max_concurrent = 1`,
two idle workers and two pending jobs, an interleaving in which both
workers pass the limit check before either dispatches reaches a state with
two jobs `running` — the claimed bound `running ≤ max_concurrent` is
violated. -/
theorem c3_counterexample :
    Reachable poolInit3 st38 ∧
    poolInit3.max_concurrent = 1 ∧
    (∀ pc ∈ poolInit3.workers, pc = WorkerPC.idle) ∧
    runningIds poolInit3.toQMState = [] ∧
    (runningIds st38.toQMState).length = 2 ∧
    ¬ ((runningIds st38.toQMState).length ≤ st38.max_concurrent) := by
  refine ⟨?_, rfl, by decide, rfl, by decide, by decide⟩
  have h1 : Step poolInit3 st31 := .checkPass _ _ 0 (by decide) (by decide) rfl
  have h2 : Step st31 st32 := .checkPass _ _ 1 (by decide) (by decide) rfl
  have h3 : Step st32 st33 := .dequeue _ _ 0 "a" ["b"] (by decide) (by decide) rfl
  have h4 : Step st33 st34 := .dequeue _ _ 1 "b" [] (by decide) (by decide) rfl
  have h5 : Step st34 st35 := .passCheck _ _ 0 "a" jA (by decide) (by decide) (by decide) rfl
  have h6 : Step st35 st36 := .passCheck _ _ 1 "b" jB (by decide) (by decide) (by decide) rfl
  have h7 : Step st36 st37 := .beginProcess _ _ 0 "a" jA (by decide) (by decide) rfl
  have h8 : Step st37 st38 := .beginProcess _ _ 1 "b" jB (by decide) (by decide) rfl
  exact .head h1 (.head h2 (.head h3 (.head h4 (.head h5 (.head h6
    (.head h7 (.head h8 .refl)))))))

/-! ## C6: cancellation of pending jobs -/

theorem step_cancelled_stable (s t : PoolState) (cid : String)
    (hstep : Step s t)
    (hj : ∃ j, findJob s.jobs cid = some j ∧ j.status = .cancelled ∧
      j.prompt_id = none)
    (hw : ∀ i pc, s.workers.get? i = some pc →
      pc ≠ .willProcess cid ∧ pc ≠ .processing cid) :
    (∃ j', findJob t.jobs cid = some j' ∧ j'.status = .cancelled ∧
      j'.prompt_id = none) ∧
    (∀ i pc, t.workers.get? i = some pc →
      pc ≠ .willProcess cid ∧ pc ≠ .processing cid) := by
  obtain ⟨j, hjf, hc, hp⟩ := hj
  cases hstep with
  | checkPass i hpc hlt ht =>
    subst ht
    refine ⟨⟨j, hjf, hc, hp⟩, ?_⟩
    intro i' pc' hpc'
    rcases get?_set_cases _ _ _ _ _ hpc' with rfl | hold
    · exact ⟨nofun, nofun⟩
    · exact hw i' pc' hold
  | dequeue i id0 q hpc hq ht =>
    subst ht
    refine ⟨⟨j, hjf, hc, hp⟩, ?_⟩
    intro i' pc' hpc'
    rcases get?_set_cases _ _ _ _ _ hpc' with rfl | hold
    · exact ⟨nofun, nofun⟩
    · exact hw i' pc' hold
  | skipCancelled i id0 j0 hpc hj0 hc0 ht =>
    subst ht
    refine ⟨⟨j, hjf, hc, hp⟩, ?_⟩
    intro i' pc' hpc'
    rcases get?_set_cases _ _ _ _ _ hpc' with rfl | hold
    · exact ⟨nofun, nofun⟩
    · exact hw i' pc' hold
  | missingJob i id0 hpc hj0 ht =>
    subst ht
    refine ⟨⟨j, hjf, hc, hp⟩, ?_⟩
    intro i' pc' hpc'
    rcases get?_set_cases _ _ _ _ _ hpc' with rfl | hold
    · exact ⟨nofun, nofun⟩
    · exact hw i' pc' hold
  | passCheck i id0 j0 hpc hj0 hc0 ht =>
    subst ht
    refine ⟨⟨j, hjf, hc, hp⟩, ?_⟩
    intro i' pc' hpc'
    rcases get?_set_cases _ _ _ _ _ hpc' with rfl | hold
    · constructor
      · intro heq
        injection heq with hid
        subst hid
        rw [hjf] at hj0
        obtain rfl := Option.some.inj hj0
        exact hc0 hc
      · exact nofun
    · exact hw i' pc' hold
  | beginProcess i id0 j0 hpc hj0 ht =>
    subst ht
    have hne : id0 ≠ cid := fun h => (hw i _ hpc).1 (by rw [h])
    constructor
    · refine ⟨j, ?_, hc, hp⟩
      show findJob (updateJob s.jobs id0
        (fun j0 => { j0 with status := .running, started_at := some s.clock })) cid = some j
      rw [findJob_updateJob_ne s.jobs id0 cid _ (Ne.symm hne)]
      exact hjf
    · intro i' pc' hpc'
      rcases get?_set_cases _ _ _ _ _ hpc' with rfl | hold
      · constructor
        · exact nofun
        · intro heq
          injection heq with hid
          exact hne hid
      · exact hw i' pc' hold
  | finishProcess i id0 j0 dr hpc hj0 ht =>
    subst ht
    have hne : id0 ≠ cid := fun h => (hw i _ hpc).2 (by rw [h])
    constructor
    · refine ⟨j, ?_, hc, hp⟩
      show findJob (updateJob s.jobs id0
        (fun _ => (applyDispatch s.retry_on_failure s.max_retries s.clock dr j0).1)) cid =
        some j
      rw [findJob_updateJob_ne s.jobs id0 cid _ (Ne.symm hne)]
      exact hjf
    · intro i' pc' hpc'
      rcases get?_set_cases _ _ _ _ _ hpc' with rfl | hold
      · exact ⟨nofun, nofun⟩
      · exact hw i' pc' hold
  | cancelAct id0 ok ht =>
    subst ht
    constructor
    · rcases cancel_job_jobs s.toQMState id0 ok with hcase | hcase
      · refine ⟨j, ?_, hc, hp⟩
        show findJob (cancel_job s.toQMState id0 ok).1.jobs cid = some j
        rw [hcase]
        exact hjf
      · by_cases hid : cid = id0
        · subst hid
          refine ⟨{ j with status := .cancelled }, ?_, rfl, hp⟩
          show findJob (cancel_job s.toQMState cid ok).1.jobs cid = some _
          rw [hcase]
          exact findJob_updateJob_self s.jobs cid _ j hjf
        · refine ⟨j, ?_, hc, hp⟩
          show findJob (cancel_job s.toQMState id0 ok).1.jobs cid = some j
          rw [hcase, findJob_updateJob_ne s.jobs id0 cid _ hid]
          exact hjf
    · intro i' pc' hpc'
      exact hw i' pc' hpc'

/-- C6 (amended): a job that is `cancelled` before dispatch (its
`prompt_id` still null) at a moment when no worker has already passed the
post-dequeue cancellation check for it — no worker program counter at
`willProcess` or `processing` for that id — is never dispatched afterward:
in every subsequently reachable state its status is still `cancelled` and
its `prompt_id` is still null.  (A worker that dequeues the id while it is
already cancelled discards it via the check of `_worker` lines 251-254.)
If the cancellation instead races between a worker's cancellation check
and the start of `_process_job`, this protection is lost — see the
counterexample. -/
theorem c6_cancel_pending_stable (s t : PoolState) (cid : String) (j : Job)
    (hj : findJob s.jobs cid = some j)
    (hc : j.status = .cancelled)
    (hp : j.prompt_id = none)
    (hw : ∀ i pc, s.workers.get? i = some pc →
      pc ≠ .willProcess cid ∧ pc ≠ .processing cid)
    (hreach : Reachable s t) :
    ∃ j', findJob t.jobs cid = some j' ∧ j'.status = .cancelled ∧
      j'.prompt_id = none := by
  have main : (∃ j', findJob t.jobs cid = some j' ∧ j'.status = .cancelled ∧
      j'.prompt_id = none) ∧
      (∀ i pc, t.workers.get? i = some pc →
        pc ≠ .willProcess cid ∧ pc ≠ .processing cid) := by
    induction hreach with
    | refl => exact ⟨⟨j, hj, hc, hp⟩, hw⟩
    | tail hab hbc ih => exact step_cancelled_stable _ _ cid hbc ih.1 ih.2
  exact main.1

theorem c6_witness :
    ∃ j', findJob (PoolState.mk
        { initQM 1 true 0 with jobs := [("j", { jC with status := .cancelled })] }
        [WorkerPC.idle]).jobs "j" = some j' ∧
      j'.status = .cancelled ∧ j'.prompt_id = none :=
  c6_cancel_pending_stable _ _ "j" { jC with status := .cancelled }
    (by decide) rfl rfl
    (by
      intro i pc h
      cases i with
      | zero =>
        obtain rfl := Option.some.inj h
        exact ⟨nofun, nofun⟩
      | succ n => simp at h)
    Relation.ReflTransGen.refl

/-- C6 counterexample: a worker dequeues the pending job "j" and passes the
cancellation check; the caller then cancels "j" while it is still pending
(the state `st64` has it `cancelled` with a null `prompt_id`); the worker
nevertheless enters `_process_job`, overwrites the status to `running`,
dispatches, and the job ends `completed` with a non-null `prompt_id` — so
a job cancelled while pending was dispatched after its cancellation. -/
theorem c6_counterexample :
    Reachable poolInit6 st63 ∧
    (findJob st63.jobs "j").map Job.status = some JobStatus.pending ∧
    Reachable st63 st64 ∧
    (findJob st64.jobs "j").map Job.status = some JobStatus.cancelled ∧
    (findJob st64.jobs "j").map Job.prompt_id = some none ∧
    Reachable st64 st66 ∧
    (findJob st66.jobs "j").map Job.status = some JobStatus.completed ∧
    (findJob st66.jobs "j").map Job.prompt_id = some (some "p") := by
  have h1 : Step poolInit6 st61 := .checkPass _ _ 0 (by decide) (by decide) rfl
  have h2 : Step st61 st62 := .dequeue _ _ 0 "j" [] (by decide) (by decide) rfl
  have h3 : Step st62 st63 := .passCheck _ _ 0 "j" jC (by decide) (by decide) (by decide) rfl
  have h4 : Step st63 st64 := .cancelAct _ _ "j" true rfl
  have h5 : Step st64 st65 := .beginProcess _ _ 0 "j" { jC with status := .cancelled }
    (by decide) (by decide) rfl
  have h6 : Step st65 st66 := .finishProcess _ _ 0 "j"
    (Option.getD (findJob st65.jobs "j") jC) (.success "p" 42) (by decide) (by decide) rfl
  refine ⟨?_, by decide, ?_, by decide, by decide, ?_, by decide, by decide⟩
  · exact .head h1 (.head h2 (.head h3 .refl))
  · exact .head h4 .refl
  · exact .head h5 (.head h6 .refl)
